import Mathlib

/-!
Verification of the farmer responsibility-attribution logic of
`src/utils/client_responsibility.py` (repository ETL-Gamma).

The module computes, from a `clients` table and a `client_transfers` log,
the periods during which each farmer was responsible for each client
(`get_client_farmer_periods`, a three-way SQL UNION with window functions),
and answers point-in-time lookups (`get_responsible_farmer`) and record
filters (`filter_data_by_responsibility`).

The embedding below translates the SQL and the pandas code into pure Lean
functions over explicit table values.  Dates are modelled as natural
numbers (only their order matters to the code); SQL `NULL` dates are
`Option.none`; farmer ids are integers (`CAST(... AS INTEGER)`).
-/

namespace ETLGamma

/-- A row of `gammadata.clients`: id, original farmer, creation date. -/
structure Client where
  client_id : Nat
  farmer_id : Int
  creation_date : Nat
deriving DecidableEq, Repr

/-- A row of `gammadata.client_transfers`. -/
structure Transfer where
  client_id : Nat
  old_farmer_id : Option Int
  new_farmer_id : Option Int
  transfer_date : Nat
  transfer_type : String
deriving DecidableEq, Repr

/-- The warehouse tables the queries read. -/
structure DB where
  clients : List Client
  transfers : List Transfer
  employees : List (Int × String)
deriving DecidableEq, Repr

/-- A row of the result of `get_client_farmer_periods`:
`(client_id, farmer_id, start_date, end_date, farmer_name)`. -/
structure Period where
  client_id : Nat
  farmer_id : Int
  start_date : Option Nat
  end_date : Option Nat
  farmer_name : Option String
deriving DecidableEq, Repr

/-- The join `LEFT JOIN gammadata.employees e ON ap.farmer_id = e.employee_id`,
selecting `e.name` (employee ids assumed unique). -/
def nameOf (db : DB) (fid : Int) : Option String :=
  (db.employees.find? (fun e => e.1 == fid)).map (fun e => e.2)

/-- The `creation_date` of a client looked up by id (the scalar subquery
`SELECT creation_date FROM gammadata.clients WHERE client_id = ...`). -/
def creationLookup (db : DB) (cid : Nat) : Option Nat :=
  (db.clients.find? (fun c => c.client_id == cid)).map (fun c => c.creation_date)

/-- The FARMER-type transfer rows of one client
(`WHERE ct.client_id = c.client_id AND ct.transfer_type = 'FARMER'`). -/
def farmerTransfersOf (db : DB) (cid : Nat) : List Transfer :=
  db.transfers.filter (fun t => t.client_id == cid && t.transfer_type == "FARMER")

/-- The sort `ORDER BY transfer_date` within one client partition (stable). -/
def sortByDate (l : List Transfer) : List Transfer :=
  l.insertionSort (fun a b => a.transfer_date ≤ b.transfer_date)

/-- The window `LEAD(transfer_date) OVER (PARTITION BY client_id ORDER BY transfer_date)`:
pair each row of the sorted partition with the next row's date. -/
def leadPairs : List Transfer → List (Transfer × Option Nat)
  | [] => []
  | [t] => [(t, none)]
  | t :: u :: rest => (t, some u.transfer_date) :: leadPairs (u :: rest)

/-- Helper for `lagPairs`: pair each later row with the previous row's date. -/
def lagTail (prev : Transfer) : List Transfer → List (Transfer × Option Nat)
  | [] => []
  | u :: rest => (u, some prev.transfer_date) :: lagTail u rest

/-- The window `COALESCE(LAG(transfer_date) OVER (...), creation_date)`: the first row of
the sorted partition gets the (possibly NULL) creation date, every later row
the previous row's date. -/
def lagPairs (creation : Option Nat) : List Transfer → List (Transfer × Option Nat)
  | [] => []
  | t :: rest => (t, creation) :: lagTail t rest

/-- CTE `client_original_farmers`, restricted to one client id: one row per
`clients` record, only when the client has no FARMER transfer. -/
def originalPeriods (db : DB) (cid : Nat) : List Period :=
  if (farmerTransfersOf db cid).isEmpty then
    (db.clients.filter (fun c => c.client_id == cid)).map
      (fun c => ⟨c.client_id, c.farmer_id, some c.creation_date, none, nameOf db c.farmer_id⟩)
  else []

/-- The sorted partition of the new-farmer CTE: FARMER transfers of the
client with non-null `new_farmer_id`, ordered by date. -/
def sortedNew (db : DB) (cid : Nat) : List Transfer :=
  sortByDate ((farmerTransfersOf db cid).filter (fun t => t.new_farmer_id.isSome))

/-- The sorted partition of the old-farmer CTE: FARMER transfers of the
client with non-null `old_farmer_id`, ordered by date. -/
def sortedOld (db : DB) (cid : Nat) : List Transfer :=
  sortByDate ((farmerTransfersOf db cid).filter (fun t => t.old_farmer_id.isSome))

/-- CTE `client_transfer_periods_new`, restricted to one client id:
`WHERE new_farmer_id IS NOT NULL AND transfer_type = 'FARMER'`, start at the
transfer date, end at the next (filtered) transfer date. -/
def newPeriods (db : DB) (cid : Nat) : List Period :=
  (leadPairs (sortedNew db cid)).map
    (fun te => ⟨cid, te.1.new_farmer_id.getD 0, some te.1.transfer_date, te.2,
      nameOf db (te.1.new_farmer_id.getD 0)⟩)

/-- CTE `client_transfer_periods_old`, restricted to one client id:
`WHERE old_farmer_id IS NOT NULL AND transfer_type = 'FARMER'`, start at the
previous (filtered) transfer date coalesced with the creation date, end at
the transfer date. -/
def oldPeriods (db : DB) (cid : Nat) : List Period :=
  (lagPairs (creationLookup db cid) (sortedOld db cid)).map
    (fun ts => ⟨cid, ts.1.old_farmer_id.getD 0, ts.2, some ts.1.transfer_date,
      nameOf db (ts.1.old_farmer_id.getD 0)⟩)

/-- The `ORDER BY ... start_date` comparison; SQL NULLs sort last in ascending
order (no claim exercises a NULL start in a sorted position). -/
def startLe (p q : Period) : Bool :=
  match p.start_date, q.start_date with
  | some a, some b => a ≤ b
  | some _, none => true
  | none, some _ => false
  | none, none => true

/-- All period rows of one client (`all_periods` with the employee join),
sorted by `start_date` — the per-`client_id` slice of the query result. -/
def periodsFor (db : DB) (cid : Nat) : List Period :=
  (originalPeriods db cid ++ newPeriods db cid ++ oldPeriods db cid).insertionSort
    (fun p q => startLe p q = true)

/-- The client ids occurring in either table (`client_original_farmers` draws
from `clients`, the two transfer CTEs from `client_transfers`). -/
def allClientIds (db : DB) : List Nat :=
  (db.clients.map (fun c => c.client_id) ++ db.transfers.map (fun t => t.client_id)).dedup

/-- Concatenation of a list of lists (explicit, for easy induction). -/
def concatAll : List (List Period) → List Period
  | [] => []
  | l :: ls => l ++ concatAll ls

/-- The optional date-range `WHERE` clauses of `get_client_farmer_periods`:
`(ap.end_date IS NULL OR ap.end_date >= start)` and `ap.start_date <= end`
(a NULL `start_date` fails the second comparison). -/
def rangePred (s? e? : Option Nat) (p : Period) : Bool :=
  (match s? with
   | none => true
   | some s => match p.end_date with
     | none => true
     | some e => s ≤ e) &&
  (match e? with
   | none => true
   | some e => match p.start_date with
     | none => false
     | some st => st ≤ e)

/-- The query `get_client_farmer_periods(start_date, end_date)`: all clients' period
rows, with the optional date-range filters applied. -/
def get_client_farmer_periods (db : DB) (s? e? : Option Nat) : List Period :=
  (concatAll ((allClientIds db).map (periodsFor db))).filter (rangePred s? e?)

/-- The containment test of `get_responsible_farmer` and `is_in_period`:
`start_date <= date and (end_date is None or pd.isna(end_date) or date < end_date)`
(a NaT/NULL start makes the first comparison false). -/
def containsB (p : Period) (d : Nat) : Bool :=
  (match p.start_date with
   | none => false
   | some s => s ≤ d) &&
  (match p.end_date with
   | none => true
   | some e => d < e)

/-- The lookup core of `get_responsible_farmer` once periods are in hand:
filter to the client, return the first row containing the date, else
`(None, None)`. -/
def lookupResponsible (periods : List Period) (cid : Nat) (d : Nat) :
    Option Int × Option String :=
  if (periods.filter (fun p => p.client_id == cid)).isEmpty then (none, none)
  else
    match (periods.filter (fun p => p.client_id == cid)).find?
        (fun p => containsB p d) with
    | some p => (some p.farmer_id, p.farmer_name)
    | none => (none, none)

/-- The lookup `get_responsible_farmer(client_id, date, df_periods)` with `df_periods`
supplied by the caller. -/
def get_responsible_farmer (cid : Nat) (d : Nat) (df_periods : List Period) :
    Option Int × Option String :=
  lookupResponsible df_periods cid d

/-- The lookup `get_responsible_farmer(client_id, date)` on the `df_periods is None`
path: periods are loaded with `get_client_farmer_periods()` first. -/
def responsibleFarmerAt (db : DB) (cid : Nat) (d : Nat) : Option Int × Option String :=
  lookupResponsible (get_client_farmer_periods db none none) cid d

/-- The body of `get_responsible_farmer` as a fallible computation: when
`df_periods` is absent the DB fetch may raise (`get_client_farmer_periods`
re-raises), modelled by an `Except`-valued fetch outcome. -/
def getResponsibleFarmerRun (df_periods : Option (List Period))
    (fetched : Except String (List Period)) (cid : Nat) (d : Nat) :
    Except String (Option Int × Option String) :=
  match df_periods with
  | some ps => Except.ok (lookupResponsible ps cid d)
  | none =>
    match fetched with
    | Except.ok ps => Except.ok (lookupResponsible ps cid d)
    | Except.error e => Except.error e

/-- The lookup `get_responsible_farmer` with its enclosing `try/except`: any error of
the body is caught and turned into the pair `(None, None)`. -/
def getResponsibleFarmerCaught (df_periods : Option (List Period))
    (fetched : Except String (List Period)) (cid : Nat) (d : Nat) :
    Option Int × Option String :=
  match getResponsibleFarmerRun df_periods fetched cid d with
  | Except.ok r => r
  | Except.error _ => (none, none)

/-- A row of the business DataFrame handed to `filter_data_by_responsibility`:
its `client_id` and the value of the named date column. -/
structure Rec where
  client_id : Nat
  date : Nat
deriving DecidableEq, Repr

/-- The business DataFrame: its column names and its rows. -/
structure DataFrame where
  cols : List String
  rows : List Rec
deriving DecidableEq, Repr

/-- The minimum `df[date_column].min()` over a nonempty row list. -/
def minDate : List Rec → Nat
  | [] => 0
  | r :: rest => rest.foldl (fun m x => Nat.min m x.date) r.date

/-- The maximum `df[date_column].max()` over a nonempty row list. -/
def maxDate : List Rec → Nat
  | [] => 0
  | r :: rest => rest.foldl (fun m x => Nat.max m x.date) r.date

/-- Python truthiness of the `farmer_id` argument (`if farmer_id:`):
`None` and `0` are falsy. -/
def truthy : Option Int → Bool
  | none => false
  | some x => decide (x ≠ 0)

/-- The farmer condition of the inner check:
`farmer_id is None or period['farmer_id'] == farmer_id`. -/
def farmerOk (farmer_id : Option Int) (p : Period) : Bool :=
  match farmer_id with
  | none => true
  | some f => p.farmer_id == f

/-- The inner `is_in_period(row)` closure: the record passes when some
period of its client contains its date and the period's farmer matches the
filter. -/
def is_in_period (periods : List Period) (farmer_id : Option Int) (r : Rec) : Bool :=
  let cps := periods.filter (fun p => p.client_id == r.client_id)
  if cps.isEmpty then false
  else cps.any (fun p => containsB p r.date && farmerOk farmer_id p)

/-- The `(start_date, end_date)` pair used to load periods: the explicit
`date_range` argument, or the min/max of the frame's date column. -/
def dateRangeOf (df : DataFrame) (date_range : Option (Nat × Nat)) : Nat × Nat :=
  match date_range with
  | some r => r
  | none => (minDate df.rows, maxDate df.rows)

/-- The body of `filter_data_by_responsibility` once the loaded periods are
in hand: the empty-period early returns, the truthiness-guarded restriction
to the requested farmer, and the row filter. -/
def filterMain (df : DataFrame) (farmer_id : Option Int) (periods : List Period) :
    DataFrame :=
  if periods.isEmpty then ⟨df.cols, []⟩
  else if truthy farmer_id then
    if (periods.filter (fun p => p.farmer_id == farmer_id.getD 0)).isEmpty then
      ⟨df.cols, []⟩
    else ⟨df.cols, df.rows.filter
      (is_in_period (periods.filter (fun p => p.farmer_id == farmer_id.getD 0)) farmer_id)⟩
  else ⟨df.cols, df.rows.filter (is_in_period periods farmer_id)⟩

/-- The filter `filter_data_by_responsibility(df, date_column, farmer_id, date_range)`. -/
def filter_data_by_responsibility (db : DB) (df : DataFrame) (date_column : String)
    (farmer_id : Option Int) (date_range : Option (Nat × Nat)) : DataFrame :=
  if df.rows.isEmpty then df
  else if "client_id" ∉ df.cols ∨ date_column ∉ df.cols then df
  else filterMain df farmer_id
    (get_client_farmer_periods db (some (dateRangeOf df date_range).1)
      (some (dateRangeOf df date_range).2))

/-! ### Canonical tiling ranges

`leadRanges [x0, x1, ..., xn]` is the list of half-open ranges
`[x0,x1), [x1,x2), ..., [xn, ∞)` — the canonical tiling of `[x0, ∞)` by the
boundary dates.  The period rows produced by the SQL union are compared
against these. -/

/-- The consecutive half-open ranges determined by a list of boundary dates,
the last one open-ended. -/
def leadRanges : List Nat → List (Nat × Option Nat)
  | [] => []
  | [x] => [(x, none)]
  | x :: y :: rest => (x, some y) :: leadRanges (y :: rest)

/-- The ranges of the old-farmer CTE rows: start at the coalesced previous
boundary, end at the own date. -/
def lagRanges (c : Nat) : List Nat → List (Nat × Option Nat)
  | [] => []
  | t :: rest => (c, some t) :: lagRanges t rest

/-- Containment of a date in a half-open range with optional right end. -/
def rContains (r : Nat × Option Nat) (d : Nat) : Bool :=
  decide (r.1 ≤ d) &&
  (match r.2 with
   | none => true
   | some e => decide (d < e))

/-- Wrap the left end of a range into the `Option Nat` used by `Period`. -/
def someFst (r : Nat × Option Nat) : Option Nat × Option Nat := (some r.1, r.2)

/-- The `[start_date, end_date)` range of a period row. -/
def rangeOf (p : Period) : Option Nat × Option Nat := (p.start_date, p.end_date)

/-! ### Concrete instances used as counterexamples and witnesses -/

/-- Client 1 (farmer 1, created at 0) with two FARMER transfers whose
old/new ids are all non-null: 1→2 at 10 and 9→3 at 20. -/
def dbC1 : DB := ⟨[⟨1, 1, 0⟩],
  [⟨1, some 1, some 2, 10, "FARMER"⟩, ⟨1, some 9, some 3, 20, "FARMER"⟩], []⟩

/-- Client 1 (farmer 1, created at 0) with one FARMER transfer 1→2 at 10. -/
def dbC1w : DB := ⟨[⟨1, 1, 0⟩], [⟨1, some 1, some 2, 10, "FARMER"⟩], []⟩

/-- An empty warehouse. -/
def dbEmpty : DB := ⟨[], [], []⟩

/-- A one-record business frame for client 1 dated 10, with both required
columns present. -/
def dfOne : DataFrame := ⟨["client_id", "d"], [⟨1, 10⟩]⟩

/-- Client 1 (farmer 2, created at 0) with no transfers. -/
def dbC2w : DB := ⟨[⟨1, 2, 0⟩], [], []⟩

/-- Client 1 (farmer 7, created at 0) whose only FARMER transfer has a null
`old_farmer_id`: none→2 at 10. -/
def dbC3 : DB := ⟨[⟨1, 7, 0⟩], [⟨1, none, some 2, 10, "FARMER"⟩], []⟩

/-- Client 1 (farmer 9, created at 5) with one FARMER transfer 4→6 at 12. -/
def dbC3w : DB := ⟨[⟨1, 9, 5⟩], [⟨1, some 4, some 6, 12, "FARMER"⟩], []⟩

/-- The database of the spec's point-lookup example: client 1 with original
farmer 1 (= A) created at `c`, transfers A→B at 2023-03-15 and B→C at
2023-09-01 (farmers B, C numbered 2, 3; dates encoded as YYYYMMDD). -/
def dbC4 (c : Nat) : DB := ⟨[⟨1, 1, c⟩],
  [⟨1, some 1, some 2, 20230315, "FARMER"⟩, ⟨1, some 2, some 3, 20230901, "FARMER"⟩], []⟩

/-- A one-record frame for the unknown client 3 dated 7. -/
def dfC5w : DataFrame := ⟨["client_id", "d"], [⟨3, 7⟩]⟩

/-- Client 2 (farmer 4, created at 3) with no transfers. -/
def dbC6w : DB := ⟨[⟨2, 4, 3⟩], [], []⟩

/-- Client 1 (farmer 1, created at 10) whose FARMER transfer 2→3 happens at
5, before the creation date. -/
def dbC7 : DB := ⟨[⟨1, 1, 10⟩], [⟨1, some 2, some 3, 5, "FARMER"⟩], []⟩

/-- Client 1 (farmer 7, created at 10) with one FARMER transfer 7→8 at 20
whose `old_farmer_id` is the original farmer. -/
def dbC7w : DB := ⟨[⟨1, 7, 10⟩], [⟨1, some 7, some 8, 20, "FARMER"⟩], []⟩

/-- Client 1 belongs to farmer 5 from creation 0 onward, with no transfers. -/
def dbC8 : DB := ⟨[⟨1, 5, 0⟩], [], []⟩

/-- Client 1 belongs to farmer 0 from creation 0 onward, with no transfers. -/
def dbC8w : DB := ⟨[⟨1, 0, 0⟩], [], []⟩

/-- A nonempty frame lacking the `client_id` column. -/
def dfC9w : DataFrame := ⟨["other"], [⟨1, 1⟩]⟩

theorem leadRanges_map_fst : ∀ xs : List Nat, (leadRanges xs).map Prod.fst = xs
  | [] => rfl
  | [_] => rfl
  | x :: y :: rest => by
    simp only [leadRanges, List.map_cons]
    exact congrArg (x :: ·) (leadRanges_map_fst (y :: rest))

theorem length_leadRanges (xs : List Nat) : (leadRanges xs).length = xs.length := by
  have h := congrArg List.length (leadRanges_map_fst xs)
  simpa using h

theorem fst_mem_of_mem_leadRanges {xs : List Nat} {r : Nat × Option Nat}
    (h : r ∈ leadRanges xs) : r.1 ∈ xs := by
  have : r.1 ∈ (leadRanges xs).map Prod.fst := List.mem_map_of_mem Prod.fst h
  rwa [leadRanges_map_fst] at this

theorem nodup_leadRanges {xs : List Nat} (h : xs.Pairwise (· < ·)) :
    (leadRanges xs).Nodup := by
  apply List.Nodup.of_map Prod.fst
  rw [leadRanges_map_fst]
  exact h.imp Nat.ne_of_lt

theorem lagRanges_subset_leadRanges :
    ∀ (c : Nat) (xs : List Nat), lagRanges c xs ⊆ leadRanges (c :: xs)
  | _, [] => by intro r hr; cases hr
  | c, t :: rest => by
    intro r hr
    simp only [lagRanges] at hr
    rcases List.mem_cons.mp hr with h | h
    · rw [h]
      exact List.mem_cons_self _ _
    · exact List.mem_cons_of_mem _ (lagRanges_subset_leadRanges t rest h)

/-- For a nonempty date list, the union CTE's ranges (lead ++ lag) have the
same members as the canonical tiling `leadRanges (c :: xs)`. -/
theorem mem_lead_lag_iff {c : Nat} {t : Nat} {rest : List Nat}
    {x : Nat × Option Nat} :
    (x ∈ leadRanges (t :: rest) ∨ x ∈ lagRanges c (t :: rest)) ↔
      x ∈ leadRanges (c :: t :: rest) := by
  constructor
  · rintro (h | h)
    · exact List.mem_cons_of_mem _ h
    · exact lagRanges_subset_leadRanges c (t :: rest) h
  · intro h
    rcases List.mem_cons.mp h with h | h
    · right
      rw [h]
      exact List.mem_cons_self _ _
    · exact Or.inl h

theorem before_head_leadRanges {xs : List Nat} {d : Nat}
    (h : ∀ z ∈ xs, d < z) {r : Nat × Option Nat} (hr : r ∈ leadRanges xs) :
    rContains r d = false := by
  have h1 : d < r.1 := h r.1 (fst_mem_of_mem_leadRanges hr)
  simp only [rContains, Bool.and_eq_false_iff, decide_eq_false_iff_not, Nat.not_le]
  exact Or.inl h1

theorem open_count_leadRanges :
    ∀ xs : List Nat, xs ≠ [] →
      ((leadRanges xs).filter (fun r => r.2.isNone)).length = 1
  | [], h => absurd rfl h
  | [_], _ => rfl
  | x :: y :: rest, _ => by
    simp only [leadRanges, List.filter_cons, Option.isNone_some]
    exact open_count_leadRanges (y :: rest) (List.cons_ne_nil _ _)

/-- Tiling: for strictly increasing boundaries `x0 :: xs`, every date at or
after `x0` lies in exactly one of the canonical ranges. -/
theorem leadRanges_tile :
    ∀ (xs : List Nat) (x0 : Nat), (x0 :: xs).Pairwise (· < ·) →
      ∀ d : Nat, x0 ≤ d →
        ∃! r : Nat × Option Nat, r ∈ leadRanges (x0 :: xs) ∧ rContains r d = true
  | [], x0, _, d, hd => by
    refine ⟨(x0, none), ⟨List.mem_singleton_self _, ?_⟩, ?_⟩
    · simp [rContains, hd]
    · rintro r ⟨hr, _⟩
      simpa using List.mem_singleton.mp hr
  | y :: rest, x0, hpw, d, hd => by
    have hx0y : x0 < y := (List.pairwise_cons.mp hpw).1 y (List.mem_cons_self _ _)
    have hpw' : (y :: rest).Pairwise (· < ·) := (List.pairwise_cons.mp hpw).2
    have hy_le : ∀ z ∈ y :: rest, y ≤ z := by
      intro z hz
      rcases List.mem_cons.mp hz with h | h
      · exact h ▸ Nat.le_refl y
      · exact Nat.le_of_lt ((List.pairwise_cons.mp hpw').1 z h)
    by_cases hdy : d < y
    · refine ⟨(x0, some y), ⟨List.mem_cons_self _ _, ?_⟩, ?_⟩
      · simp [rContains, hd, hdy]
      · rintro r ⟨hr, hc⟩
        rcases List.mem_cons.mp hr with h | h
        · exact h
        · exfalso
          have h1 : y ≤ r.1 := hy_le r.1 (fst_mem_of_mem_leadRanges h)
          have h2 : r.1 ≤ d := by
            have := hc
            simp only [rContains, Bool.and_eq_true, decide_eq_true_eq] at this
            exact this.1
          exact Nat.lt_irrefl d (Nat.lt_of_lt_of_le hdy (Nat.le_trans h1 h2))
    · have hyd : y ≤ d := Nat.le_of_not_lt hdy
      obtain ⟨r, ⟨hrm, hrc⟩, hru⟩ := leadRanges_tile rest y hpw' d hyd
      refine ⟨r, ⟨List.mem_cons_of_mem _ hrm, hrc⟩, ?_⟩
      rintro r' ⟨hr', hc'⟩
      rcases List.mem_cons.mp hr' with h | h
      · exfalso
        rw [h] at hc'
        simp only [rContains, Bool.and_eq_true, decide_eq_true_eq] at hc'
        exact hdy hc'.2
      · exact hru r' ⟨h, hc'⟩

/-! ### Generic list helpers -/

theorem find?_eq_of_unique {α : Type} {p : α → Bool} :
    ∀ {l : List α} {x : α}, x ∈ l → p x = true →
      (∀ y ∈ l, p y = true → y = x) → l.find? p = some x
  | [], _, hx, _, _ => absurd hx (List.not_mem_nil _)
  | a :: l, x, hx, hpx, huniq => by
    by_cases ha : p a = true
    · rw [List.find?_cons_of_pos _ ha, huniq a (List.mem_cons_self _ _) ha]
    · rw [List.find?_cons_of_neg _ ha]
      have hxl : x ∈ l := by
        rcases List.mem_cons.mp hx with h | h
        · exact absurd (h ▸ hpx) ha
        · exact h
      exact find?_eq_of_unique hxl hpx (fun y hy hpy => huniq y (List.mem_cons_of_mem _ hy) hpy)

theorem mem_concatAll {ids : List Nat} {f : Nat → List Period} {p : Period} :
    p ∈ concatAll (ids.map f) ↔ ∃ j ∈ ids, p ∈ f j := by
  induction ids with
  | nil => simp [concatAll]
  | cons i rest ih =>
    simp only [List.map_cons, concatAll, List.mem_append, ih, List.mem_cons]
    constructor
    · rintro (h | ⟨j, hj, hp⟩)
      · exact ⟨i, Or.inl rfl, h⟩
      · exact ⟨j, Or.inr hj, hp⟩
    · rintro ⟨j, (rfl | hj), hp⟩
      · exact Or.inl hp
      · exact Or.inr ⟨j, hj, hp⟩

/-! ### Characterization of the period rows of one client -/

theorem leadPairs_fst_mem :
    ∀ {l : List Transfer} {x : Transfer × Option Nat}, x ∈ leadPairs l → x.1 ∈ l
  | [], _, hx => absurd hx (List.not_mem_nil _)
  | [t], x, hx => by
    simp only [leadPairs, List.mem_singleton] at hx
    rw [hx]
    exact List.mem_singleton_self t
  | t :: u :: rest, x, hx => by
    simp only [leadPairs] at hx
    rcases List.mem_cons.mp hx with h | h
    · rw [h]
      exact List.mem_cons_self _ _
    · exact List.mem_cons_of_mem _ (leadPairs_fst_mem h)

theorem mem_lagTail :
    ∀ {prev : Transfer} {l : List Transfer} {x : Transfer × Option Nat},
      x ∈ lagTail prev l → x.1 ∈ l ∧ ∃ w ∈ prev :: l, x.2 = some w.transfer_date
  | _, [], _, hx => absurd hx (List.not_mem_nil _)
  | prev, u :: rest, x, hx => by
    simp only [lagTail] at hx
    rcases List.mem_cons.mp hx with h | h
    · rw [h]
      exact ⟨List.mem_cons_self _ _, prev, List.mem_cons_self _ _, rfl⟩
    · obtain ⟨h1, w, hw, h2⟩ := mem_lagTail h
      exact ⟨List.mem_cons_of_mem _ h1,
        w, List.mem_cons_of_mem _ hw, h2⟩

theorem mem_lagPairs {co : Option Nat} {l : List Transfer} {x : Transfer × Option Nat}
    (hx : x ∈ lagPairs co l) :
    x.1 ∈ l ∧ (x.2 = co ∨ ∃ w ∈ l, x.2 = some w.transfer_date) := by
  cases l with
  | nil => cases hx
  | cons t rest =>
    simp only [lagPairs] at hx
    rcases List.mem_cons.mp hx with h | h
    · rw [h]
      exact ⟨List.mem_cons_self _ _, Or.inl rfl⟩
    · obtain ⟨h1, w, hw, h2⟩ := mem_lagTail h
      exact ⟨List.mem_cons_of_mem _ h1, Or.inr ⟨w, hw, h2⟩⟩

theorem mem_sortedNew_sub {db : DB} {cid : Nat} {t : Transfer}
    (h : t ∈ sortedNew db cid) : t ∈ farmerTransfersOf db cid := by
  have h1 : t ∈ (farmerTransfersOf db cid).filter (fun t => t.new_farmer_id.isSome) := by
    simpa [sortedNew, sortByDate] using h
  exact (List.mem_filter.mp h1).1

theorem mem_sortedOld_sub {db : DB} {cid : Nat} {t : Transfer}
    (h : t ∈ sortedOld db cid) : t ∈ farmerTransfersOf db cid := by
  have h1 : t ∈ (farmerTransfersOf db cid).filter (fun t => t.old_farmer_id.isSome) := by
    simpa [sortedOld, sortByDate] using h
  exact (List.mem_filter.mp h1).1

/-- Every row produced for client `cid` carries `client_id = cid`. -/
theorem periodsFor_client {db : DB} {cid : Nat} {p : Period}
    (hp : p ∈ periodsFor db cid) : p.client_id = cid := by
  have hp' : p ∈ originalPeriods db cid ++ newPeriods db cid ++ oldPeriods db cid := by
    simpa [periodsFor] using hp
  rcases List.mem_append.mp hp' with h | h
  · rcases List.mem_append.mp h with h | h
    · unfold originalPeriods at h
      split at h
      · obtain ⟨cl, hcl, hP⟩ := List.mem_map.mp h
        have h2 : cl.client_id = cid := by
          have h3 := (List.mem_filter.mp hcl).2
          simpa using h3
        rw [← hP]
        simpa using h2
      · cases h
    · obtain ⟨te, _, hP⟩ := List.mem_map.mp h
      rw [← hP]
  · obtain ⟨ts, _, hP⟩ := List.mem_map.mp h
    rw [← hP]

/-- Filtering the rows of one client by its own id is a no-op. -/
theorem filter_periodsFor_self (db : DB) (cid : Nat) :
    (periodsFor db cid).filter (fun p => p.client_id == cid) = periodsFor db cid := by
  apply List.filter_eq_self.mpr
  intro p hp
  exact beq_iff_eq.mpr (periodsFor_client hp)

theorem mem_allClientIds_of_client {db : DB} {cl : Client}
    (h : cl ∈ db.clients) : cl.client_id ∈ allClientIds db := by
  unfold allClientIds
  rw [List.mem_dedup]
  exact List.mem_append.mpr (Or.inl (List.mem_map_of_mem _ h))

theorem mem_allClientIds_of_transfer {db : DB} {t : Transfer}
    (h : t ∈ db.transfers) : t.client_id ∈ allClientIds db := by
  unfold allClientIds
  rw [List.mem_dedup]
  exact List.mem_append.mpr (Or.inr (List.mem_map_of_mem _ h))

theorem rangePred_none_none (p : Period) : rangePred none none p = true := rfl

theorem get_client_farmer_periods_none_none (db : DB) :
    get_client_farmer_periods db none none =
      concatAll ((allClientIds db).map (periodsFor db)) := by
  unfold get_client_farmer_periods
  exact List.filter_eq_self.mpr (fun p _ => rangePred_none_none p)

theorem filter_concat_of_nodup {db : DB} {cid : Nat} :
    ∀ {ids : List Nat}, ids.Nodup → cid ∈ ids →
      (concatAll (ids.map (periodsFor db))).filter (fun p => p.client_id == cid) =
        periodsFor db cid := by
  intro ids
  induction ids with
  | nil => intro _ h; cases h
  | cons i rest ih =>
    intro hnd hm
    simp only [List.map_cons, concatAll, List.filter_append]
    rcases List.mem_cons.mp hm with rfl | hm'
    · have h1 : (periodsFor db cid).filter (fun p => p.client_id == cid) =
          periodsFor db cid := filter_periodsFor_self db cid
      have h2 : (concatAll (rest.map (periodsFor db))).filter
          (fun p => p.client_id == cid) = [] := by
        apply List.filter_eq_nil_iff.mpr
        intro p hp
        obtain ⟨j, hj, hpj⟩ := mem_concatAll.mp hp
        have hpc : p.client_id = j := periodsFor_client hpj
        have hne : j ≠ cid := by
          intro h
          exact (List.nodup_cons.mp hnd).1 (h ▸ hj)
        simp [hpc, hne]
      rw [h1, h2, List.append_nil]
    · have hne : i ≠ cid := by
        intro h
        exact (List.nodup_cons.mp hnd).1 (h ▸ hm')
      have h1 : (periodsFor db i).filter (fun p => p.client_id == cid) = [] := by
        apply List.filter_eq_nil_iff.mpr
        intro p hp
        have hpc : p.client_id = i := periodsFor_client hp
        simp [hpc, hne]
      rw [h1, List.nil_append, ih (List.nodup_cons.mp hnd).2 hm']

/-- The fetched periods of `get_responsible_farmer`'s default path, filtered
to one known client id, are exactly that client's period rows. -/
theorem filter_client_getClient {db : DB} {cid : Nat} (h : cid ∈ allClientIds db) :
    (get_client_farmer_periods db none none).filter (fun p => p.client_id == cid) =
      periodsFor db cid := by
  rw [get_client_farmer_periods_none_none]
  exact filter_concat_of_nodup (List.nodup_dedup _) h

/-- An unknown client id matches no fetched period row, whatever the range. -/
theorem getClient_no_rows {db : DB} {cid : Nat} (h : cid ∉ allClientIds db)
    (s? e? : Option Nat) :
    ∀ p ∈ get_client_farmer_periods db s? e?, p.client_id ≠ cid := by
  intro p hp
  have hp' : p ∈ concatAll ((allClientIds db).map (periodsFor db)) :=
    (List.mem_filter.mp hp).1
  obtain ⟨j, hj, hpj⟩ := mem_concatAll.mp hp'
  have hpc : p.client_id = j := periodsFor_client hpj
  intro hcontra
  exact h (hcontra ▸ hpc ▸ hj)

/-! ### The ranges of the CTE rows are the lead/lag ranges of the dates -/

theorem map_range_leadPairs :
    ∀ l : List Transfer,
      (leadPairs l).map (fun te => ((some te.1.transfer_date : Option Nat), te.2)) =
        (leadRanges (l.map (fun t => t.transfer_date))).map someFst
  | [] => rfl
  | [_] => rfl
  | t :: u :: rest => by
    simp only [leadPairs, List.map_cons, leadRanges]
    exact congrArg (_ :: ·) (map_range_leadPairs (u :: rest))

theorem map_range_lagTail :
    ∀ (prev : Transfer) (l : List Transfer),
      (lagTail prev l).map (fun ts => (ts.2, (some ts.1.transfer_date : Option Nat))) =
        (lagRanges prev.transfer_date (l.map (fun t => t.transfer_date))).map someFst
  | _, [] => rfl
  | prev, u :: rest => by
    simp only [lagTail, List.map_cons, lagRanges, someFst]
    exact congrArg (_ :: ·) (map_range_lagTail u rest)

theorem map_range_lagPairs (c : Nat) :
    ∀ l : List Transfer,
      (lagPairs (some c) l).map (fun ts => (ts.2, (some ts.1.transfer_date : Option Nat))) =
        (lagRanges c (l.map (fun t => t.transfer_date))).map someFst
  | [] => rfl
  | t :: rest => by
    simp only [lagPairs, List.map_cons, lagRanges, someFst]
    exact congrArg (_ :: ·) (map_range_lagTail t rest)

theorem map_rangeOf_newPeriods (db : DB) (cid : Nat) :
    (newPeriods db cid).map rangeOf =
      (leadRanges ((sortedNew db cid).map (fun t => t.transfer_date))).map someFst := by
  unfold newPeriods
  rw [List.map_map]
  exact map_range_leadPairs (sortedNew db cid)

theorem map_rangeOf_oldPeriods {db : DB} {cid : Nat} {c : Nat}
    (h : creationLookup db cid = some c) :
    (oldPeriods db cid).map rangeOf =
      (lagRanges c ((sortedOld db cid).map (fun t => t.transfer_date))).map someFst := by
  unfold oldPeriods
  rw [h, List.map_map]
  exact map_range_lagPairs c (sortedOld db cid)

/-! ### Lookup helpers -/

theorem lookup_eq_of_find {periods : List Period} {cid : Nat} {d : Nat} {p : Period}
    (h : (periods.filter (fun p => p.client_id == cid)).find? (fun p => containsB p d) =
      some p) :
    lookupResponsible periods cid d = (some p.farmer_id, p.farmer_name) := by
  have hmem := List.mem_of_find?_eq_some h
  unfold lookupResponsible
  have hne : (periods.filter (fun p => p.client_id == cid)).isEmpty = false := by
    cases hl : periods.filter (fun p => p.client_id == cid) with
    | nil => rw [hl] at hmem; cases hmem
    | cons a l => rfl
  simp only [hne, Bool.false_eq_true, if_false, h]

theorem lookup_eq_none_of_nocontain {periods : List Period} {cid : Nat} {d : Nat}
    (h : ∀ p ∈ periods.filter (fun p => p.client_id == cid), containsB p d = false) :
    lookupResponsible periods cid d = (none, none) := by
  unfold lookupResponsible
  have hf : (periods.filter (fun p => p.client_id == cid)).find?
      (fun p => containsB p d) = none := by
    apply List.find?_eq_none.mpr
    intro p hp
    rw [h p hp]
    exact Bool.false_ne_true
  simp only [hf]
  split
  · rfl
  · rfl

theorem lookup_eq_none_of_filter_nil {periods : List Period} {cid : Nat} {d : Nat}
    (h : periods.filter (fun p => p.client_id == cid) = []) :
    lookupResponsible periods cid d = (none, none) := by
  unfold lookupResponsible
  simp only [h, List.isEmpty_nil, if_true]

/-! ### Helpers for the record filter -/

theorem is_in_period_iff {periods : List Period} {fid : Option Int} {r : Rec} :
    is_in_period periods fid r = true ↔
      ∃ p ∈ periods, p.client_id = r.client_id ∧
        (containsB p r.date && farmerOk fid p) = true := by
  unfold is_in_period
  cases hl : periods.filter (fun p => p.client_id == r.client_id) with
  | nil =>
    simp only [hl, List.isEmpty_nil, if_true]
    constructor
    · intro h
      exact absurd h Bool.false_ne_true
    · rintro ⟨p, hp, hc, _⟩
      have : p ∈ periods.filter (fun p => p.client_id == r.client_id) :=
        List.mem_filter.mpr ⟨hp, beq_iff_eq.mpr hc⟩
      rw [hl] at this
      cases this
  | cons a l =>
    have hiff : ∀ p, p ∈ periods.filter (fun p => p.client_id == r.client_id) ↔
        (p ∈ periods ∧ p.client_id = r.client_id) := by
      intro p
      rw [List.mem_filter]
      exact and_congr_right (fun _ => beq_iff_eq)
    simp only [List.isEmpty_cons, Bool.false_eq_true, if_false]
    rw [← hl, List.any_eq_true]
    constructor
    · rintro ⟨p, hp, hc⟩
      obtain ⟨h1, h2⟩ := (hiff p).mp hp
      exact ⟨p, h1, h2, hc⟩
    · rintro ⟨p, hp, hc, hb⟩
      exact ⟨p, (hiff p).mpr ⟨hp, hc⟩, hb⟩

theorem is_in_period_nil {fid : Option Int} {r : Rec} :
    is_in_period [] fid r = false := rfl

theorem filterMain_cols (df : DataFrame) (fid : Option Int) (ps : List Period) :
    (filterMain df fid ps).cols = df.cols := by
  unfold filterMain
  split
  · rfl
  · split
    · split
      · rfl
      · rfl
    · rfl

/-- When the farmer argument is falsy (`None` or `0`), the body is exactly
the row filter by `is_in_period` over the unrestricted periods. -/
theorem filterMain_rows_falsy {df : DataFrame} {fid : Option Int} {ps : List Period}
    (h : truthy fid = false) :
    (filterMain df fid ps).rows = df.rows.filter (is_in_period ps fid) := by
  unfold filterMain
  cases hl : ps with
  | nil =>
    simp only [List.isEmpty_nil, if_true]
    have : ∀ r ∈ df.rows, ¬ (is_in_period ([] : List Period) fid r = true) := by
      intro r _ hc
      rw [is_in_period_nil] at hc
      exact Bool.false_ne_true hc
    exact (List.filter_eq_nil_iff.mpr this).symm
  | cons a l =>
    simp only [List.isEmpty_cons, if_false, h, Bool.false_eq_true]

/-- Every kept row came from the input and is covered by a loaded period of
its client that satisfies the farmer condition. -/
theorem mem_rows_filterMain {df : DataFrame} {fid : Option Int} {ps : List Period}
    {r : Rec} (hr : r ∈ (filterMain df fid ps).rows) :
    r ∈ df.rows ∧ ∃ p ∈ ps, p.client_id = r.client_id ∧
      (containsB p r.date && farmerOk fid p) = true := by
  unfold filterMain at hr
  split at hr
  · cases hr
  · split at hr
    · split at hr
      · cases hr
      · have h1 := List.mem_filter.mp hr
        obtain ⟨p, hp, hc, hb⟩ := is_in_period_iff.mp h1.2
        exact ⟨h1.1, p, (List.mem_filter.mp hp).1, hc, hb⟩
    · have h1 := List.mem_filter.mp hr
      obtain ⟨p, hp, hc, hb⟩ := is_in_period_iff.mp h1.2
      exact ⟨h1.1, p, hp, hc, hb⟩

/-! ### Further structural helpers -/

theorem find?_eq_head_filter {α : Type} (p : α → Bool) :
    ∀ l : List α, l.find? p = (l.filter p).head?
  | [] => rfl
  | a :: l => by
    by_cases h : p a = true
    · rw [List.find?_cons_of_pos _ h, List.filter_cons_of_pos h]
      rfl
    · rw [List.find?_cons_of_neg _ (by simpa using h),
        List.filter_cons_of_neg (by simpa using h)]
      exact find?_eq_head_filter p l

theorem length_leadPairs : ∀ l : List Transfer, (leadPairs l).length = l.length
  | [] => rfl
  | [_] => rfl
  | _ :: u :: rest => by
    simp only [leadPairs, List.length_cons]
    exact congrArg (· + 1) (length_leadPairs (u :: rest))

theorem length_lagTail : ∀ (prev : Transfer) (l : List Transfer),
    (lagTail prev l).length = l.length
  | _, [] => rfl
  | _, u :: rest => by
    simp only [lagTail, List.length_cons]
    exact congrArg (· + 1) (length_lagTail u rest)

theorem length_lagPairs (co : Option Nat) (l : List Transfer) :
    (lagPairs co l).length = l.length := by
  cases l with
  | nil => rfl
  | cons t rest =>
    simp only [lagPairs, List.length_cons]
    exact congrArg (· + 1) (length_lagTail t rest)

/-! ### Claim theorems -/

theorem lookup_fst_none {ps : List Period} {cid d : Nat}
    (h : (lookupResponsible ps cid d).1 = none) :
    lookupResponsible ps cid d = (none, none) := by
  unfold lookupResponsible at h ⊢
  split
  · rfl
  · rename_i hne
    rw [if_neg hne] at h
    cases hf : (ps.filter (fun p => p.client_id == cid)).find? (fun p => containsB p d) with
    | none => rfl
    | some p =>
      rw [hf] at h
      exact absurd h (by simp)

/-- C9: a nonempty frame lacking the `client_id` column or the named date
column is returned unchanged — every record passes through unfiltered — by
`filter_data_by_responsibility`, instead of an error or an empty result. -/
theorem c9_missing_columns_passthrough (db : DB) (df : DataFrame) (dc : String)
    (fid : Option Int) (dr : Option (Nat × Nat)) (hne : df.rows ≠ [])
    (hcols : "client_id" ∉ df.cols ∨ dc ∉ df.cols) :
    filter_data_by_responsibility db df dc fid dr = df := by
  unfold filter_data_by_responsibility
  have h1 : df.rows.isEmpty = false := by
    cases h : df.rows with
    | nil => exact absurd h hne
    | cons a l => rfl
  simp only [h1, Bool.false_eq_true, if_false]
  exact if_pos hcols

/-- C9 witness: a concrete nonempty frame without `client_id` is returned
unchanged. -/
theorem c9_missing_columns_passthrough_witness :
    filter_data_by_responsibility dbEmpty dfC9w "d" none none = dfC9w :=
  c9_missing_columns_passthrough dbEmpty dfC9w "d" none none
    (by decide) (by decide)

/-- C10: `get_responsible_farmer` always yields a pair; an error raised by
its body (the DB fetch of the `df_periods is None` path) is caught and
becomes `(None, None)`, and whenever the returned farmer id is `none` the
whole pair is the failure pair `(None, None)`. -/
theorem c10_total_failure_pair (dfp : Option (List Period))
    (fetched : Except String (List Period)) (cid d : Nat) :
    ((getResponsibleFarmerCaught dfp fetched cid d).1 = none →
      getResponsibleFarmerCaught dfp fetched cid d = (none, none)) ∧
    (∀ e, getResponsibleFarmerRun dfp fetched cid d = Except.error e →
      getResponsibleFarmerCaught dfp fetched cid d = (none, none)) := by
  cases dfp with
  | some ps =>
    refine ⟨fun h => ?_, fun e he => ?_⟩
    · exact lookup_fst_none h
    · exact absurd he (by simp [getResponsibleFarmerRun])
  | none =>
    cases fetched with
    | ok ps =>
      refine ⟨fun h => ?_, fun e he => ?_⟩
      · exact lookup_fst_none h
      · exact absurd he (by simp [getResponsibleFarmerRun])
    | error e =>
      exact ⟨fun _ => rfl, fun _ _ => rfl⟩

/-- C10 witness: with no pre-loaded periods and a failing fetch, the caught
result is the failure pair. -/
theorem c10_total_failure_pair_witness :
    getResponsibleFarmerCaught none (Except.error "db down") 1 0 = (none, none) :=
  (c10_total_failure_pair none (Except.error "db down") 1 0).2 "db down" rfl

/-- A client row is in the `clients` table with the right id whenever the
filtered table is the singleton of it. -/
theorem client_of_filter_singleton {db : DB} {cid : Nat} {cl : Client}
    (hcl : db.clients.filter (fun c => c.client_id == cid) = [cl]) :
    cl ∈ db.clients ∧ cl.client_id = cid := by
  have hclmem : cl ∈ db.clients.filter (fun c => c.client_id == cid) := by
    rw [hcl]
    exact List.mem_singleton_self cl
  exact ⟨(List.mem_filter.mp hclmem).1, beq_iff_eq.mp (List.mem_filter.mp hclmem).2⟩

/-- With a unique creation record and no FARMER transfers, the client's
period rows are the single open-ended original-farmer row. -/
theorem periodsFor_no_transfers {db : DB} {cid : Nat} {cl : Client}
    (hcl : db.clients.filter (fun c => c.client_id == cid) = [cl])
    (hnt : farmerTransfersOf db cid = []) :
    periodsFor db cid =
      [⟨cl.client_id, cl.farmer_id, some cl.creation_date, none, nameOf db cl.farmer_id⟩] := by
  unfold periodsFor
  have horig : originalPeriods db cid =
      [⟨cl.client_id, cl.farmer_id, some cl.creation_date, none, nameOf db cl.farmer_id⟩] := by
    unfold originalPeriods
    rw [hnt]
    simp only [List.isEmpty_nil, if_true, hcl, List.map_cons, List.map_nil]
  have hnew : newPeriods db cid = [] := by
    unfold newPeriods sortedNew sortByDate
    rw [hnt]
    rfl
  have hold : oldPeriods db cid = [] := by
    unfold oldPeriods sortedOld sortByDate
    rw [hnt]
    rfl
  rw [horig, hnew, hold]
  rfl

/-- C6: a client with a (unique) creation record and no FARMER transfer
events yields exactly one period row, the open-ended interval
`[creation_date, null)` attributed to its original farmer. -/
theorem c6_no_transfer_single_interval (db : DB) (cid : Nat) (cl : Client)
    (hcl : db.clients.filter (fun c => c.client_id == cid) = [cl])
    (hnt : farmerTransfersOf db cid = []) :
    (get_client_farmer_periods db none none).filter (fun p => p.client_id == cid) =
      [⟨cl.client_id, cl.farmer_id, some cl.creation_date, none, nameOf db cl.farmer_id⟩] := by
  obtain ⟨hcl1, hcl2⟩ := client_of_filter_singleton hcl
  have hcm : cid ∈ allClientIds db := hcl2 ▸ mem_allClientIds_of_client hcl1
  rw [filter_client_getClient hcm]
  exact periodsFor_no_transfers hcl hnt

/-- C6 witness: the concrete no-transfer client 2 of `dbC6w` yields the
single open-ended row for its original farmer 4. -/
theorem c6_no_transfer_single_interval_witness :
    (get_client_farmer_periods dbC6w none none).filter (fun p => p.client_id == 2) =
      [⟨2, 4, some 3, none, none⟩] :=
  c6_no_transfer_single_interval dbC6w 2 ⟨2, 4, 3⟩ (by decide) (by decide)

/-- C5: a client known to neither table yields an empty period list; every
point-in-time lookup for it returns the failure pair, and the record filter
(called with both required columns present) never keeps one of its records. -/
theorem c5_unknown_client_no_data (db : DB) (cid : Nat)
    (hc : ∀ cl ∈ db.clients, cl.client_id ≠ cid)
    (ht : ∀ t ∈ db.transfers, t.client_id ≠ cid) :
    (∀ s? e? : Option Nat, (get_client_farmer_periods db s? e?).filter
      (fun p => p.client_id == cid) = []) ∧
    (∀ d, responsibleFarmerAt db cid d = (none, none)) ∧
    (∀ (df : DataFrame) (dc : String) (fid : Option Int) (dr : Option (Nat × Nat)),
      ∀ r ∈ (filter_data_by_responsibility db df dc fid dr).rows,
        "client_id" ∈ df.cols → dc ∈ df.cols → r.client_id ≠ cid) := by
  have hnm : cid ∉ allClientIds db := by
    intro hmem
    unfold allClientIds at hmem
    rw [List.mem_dedup] at hmem
    rcases List.mem_append.mp hmem with h | h
    · obtain ⟨cl, hcl, hid⟩ := List.mem_map.mp h
      exact hc cl hcl hid
    · obtain ⟨t, htr, hid⟩ := List.mem_map.mp h
      exact ht t htr hid
  have hfil : ∀ s? e? : Option Nat, (get_client_farmer_periods db s? e?).filter
      (fun p => p.client_id == cid) = [] := by
    intro s? e?
    apply List.filter_eq_nil_iff.mpr
    intro p hp hbeq
    exact getClient_no_rows hnm s? e? p hp (beq_iff_eq.mp hbeq)
  refine ⟨hfil, ?_, ?_⟩
  · intro d
    exact lookup_eq_none_of_filter_nil (hfil none none)
  · intro df dc fid dr r hr h1 h2
    unfold filter_data_by_responsibility at hr
    split at hr
    · rename_i hre
      have : df.rows = [] := by
        cases h : df.rows with
        | nil => rfl
        | cons a l => rw [h] at hre; cases hre
      rw [this] at hr
      cases hr
    · split at hr
      · rename_i hcols
        exact absurd (not_or.mpr ⟨not_not_intro h1, not_not_intro h2⟩) (not_not_intro hcols)
      · obtain ⟨_, p, hp, hcli, _⟩ := mem_rows_filterMain hr
        intro hcontra
        exact getClient_no_rows hnm _ _ p hp (hcontra ▸ hcli)

/-- C5 witness: the unknown client 3 of an empty warehouse has no periods,
a failure-pair lookup, and its record is excluded by the filter. -/
theorem c5_unknown_client_no_data_witness :
    ((get_client_farmer_periods dbEmpty none none).filter
      (fun p => p.client_id == 3) = []) ∧
    responsibleFarmerAt dbEmpty 3 7 = (none, none) ∧
    ∀ r ∈ (filter_data_by_responsibility dbEmpty dfC5w "d" none none).rows,
      r.client_id ≠ 3 := by
  have H := c5_unknown_client_no_data dbEmpty 3
    (by intro cl hcl; cases hcl) (by intro t htr; cases htr)
  exact ⟨H.1 none none, H.2.1 7,
    fun r hr => H.2.2 dfC5w "d" none none r hr (by decide) (by decide)⟩

/-- Shared specification of `filter_data_by_responsibility` for a falsy
farmer argument (`None` or `0`): the periods are not pre-restricted and the
result keeps exactly the input rows covered by a loaded period of their
client that passes the inner farmer condition, preserving order. -/
theorem filter_data_falsy_spec (db : DB) (df : DataFrame) (dc : String) (s e : Nat)
    (fid : Option Int) (h1 : "client_id" ∈ df.cols) (h2 : dc ∈ df.cols)
    (hf : truthy fid = false) :
    (filter_data_by_responsibility db df dc fid (some (s, e))).cols = df.cols ∧
    (filter_data_by_responsibility db df dc fid (some (s, e))).rows.Sublist df.rows ∧
    ∀ r : Rec, r ∈ (filter_data_by_responsibility db df dc fid (some (s, e))).rows ↔
      r ∈ df.rows ∧ ∃ p ∈ get_client_farmer_periods db (some s) (some e),
        p.client_id = r.client_id ∧ (containsB p r.date && farmerOk fid p) = true := by
  by_cases hre : df.rows.isEmpty = true
  · have hnil : df.rows = [] := by
      cases h : df.rows with
      | nil => rfl
      | cons a l => rw [h] at hre; cases hre
    have hres : filter_data_by_responsibility db df dc fid (some (s, e)) = df := by
      unfold filter_data_by_responsibility
      rw [if_pos hre]
    rw [hres, hnil]
    exact ⟨rfl, List.Sublist.refl [], fun r => by simp⟩
  · have hcols : ¬("client_id" ∉ df.cols ∨ dc ∉ df.cols) :=
      fun hor => hor.elim (fun hn => hn h1) (fun hn => hn h2)
    have hres : filter_data_by_responsibility db df dc fid (some (s, e)) =
        filterMain df fid (get_client_farmer_periods db (some s) (some e)) := by
      unfold filter_data_by_responsibility
      rw [if_neg hre, if_neg hcols]
      rfl
    rw [hres]
    have hrows := @filterMain_rows_falsy df fid
      (get_client_farmer_periods db (some s) (some e)) hf
    refine ⟨filterMain_cols df fid _, ?_, ?_⟩
    · rw [hrows]
      exact List.filter_sublist df.rows
    · intro r
      rw [hrows, List.mem_filter, is_in_period_iff]

/-- C2 counterexample: with `farmer_id=None`, a nonempty frame whose client
has no responsibility periods is NOT passed through unchanged — the result
is empty, so the call is not a no-op. -/
theorem c2_counterexample :
    (filter_data_by_responsibility dbEmpty dfOne "d" none (some (0, 100))).rows = [] ∧
    dfOne.rows = [⟨1, 10⟩] ∧
    filter_data_by_responsibility dbEmpty dfOne "d" none (some (0, 100)) ≠ dfOne := by
  decide

/-- C2 (amended): with `farmer_id=None` the filter is not a passthrough; it
keeps exactly (and in order) the input records whose date lies in some
loaded responsibility period of the record's client, whichever farmer that
period belongs to. -/
theorem c2_none_farmer_keeps_covered (db : DB) (df : DataFrame) (dc : String)
    (s e : Nat) (h1 : "client_id" ∈ df.cols) (h2 : dc ∈ df.cols) :
    (filter_data_by_responsibility db df dc none (some (s, e))).cols = df.cols ∧
    (filter_data_by_responsibility db df dc none (some (s, e))).rows.Sublist df.rows ∧
    ∀ r : Rec, r ∈ (filter_data_by_responsibility db df dc none (some (s, e))).rows ↔
      r ∈ df.rows ∧ ∃ p ∈ get_client_farmer_periods db (some s) (some e),
        p.client_id = r.client_id ∧ containsB p r.date = true := by
  obtain ⟨hc, hs, hm⟩ := filter_data_falsy_spec db df dc s e none h1 h2 rfl
  refine ⟨hc, hs, fun r => ?_⟩
  rw [hm r]
  have hok : ∀ p : Period, (containsB p r.date && farmerOk none p) = containsB p r.date := by
    intro p
    rw [show farmerOk none p = true from rfl, Bool.and_true]
  constructor
  · rintro ⟨hrr, p, hp, hcl, hb⟩
    exact ⟨hrr, p, hp, hcl, (hok p) ▸ hb⟩
  · rintro ⟨hrr, p, hp, hcl, hb⟩
    exact ⟨hrr, p, hp, hcl, (hok p).symm ▸ hb⟩

/-- C2 witness: a record of a client covered by a period (any farmer) is
kept by the no-farmer call. -/
theorem c2_none_farmer_keeps_covered_witness :
    (⟨1, 10⟩ : Rec) ∈
      (filter_data_by_responsibility dbC2w dfOne "d" none (some (0, 100))).rows :=
  ((c2_none_farmer_keeps_covered dbC2w dfOne "d" 0 100
      (by decide) (by decide)).2.2 ⟨1, 10⟩).mpr
    ⟨by decide, ⟨1, 2, some 0, none, none⟩, by decide, by decide, by decide⟩

/-- C8 counterexample: with `farmer_id=0` a record covered by a farmer-5
period is dropped, while the no-filter call keeps it — farmer id 0 does not
behave as if no farmer filter had been given. -/
theorem c8_counterexample :
    (filter_data_by_responsibility dbC8 dfOne "d" (some 0) (some (0, 100))).rows = [] ∧
    (filter_data_by_responsibility dbC8 dfOne "d" none (some (0, 100))).rows =
      dfOne.rows := by
  decide

/-- C8 (amended): for farmer id 0 the truthiness check skips the
pre-restriction of the periods (and its empty-result shortcut), but the
per-record check still requires the covering period's farmer to equal 0: a
record is kept exactly when some loaded period of its client covering its
date belongs to farmer 0. -/
theorem c8_zero_farmer_still_filters (db : DB) (df : DataFrame) (dc : String)
    (s e : Nat) (h1 : "client_id" ∈ df.cols) (h2 : dc ∈ df.cols) :
    (filter_data_by_responsibility db df dc (some 0) (some (s, e))).cols = df.cols ∧
    (filter_data_by_responsibility db df dc (some 0) (some (s, e))).rows.Sublist df.rows ∧
    ∀ r : Rec, r ∈ (filter_data_by_responsibility db df dc (some 0) (some (s, e))).rows ↔
      r ∈ df.rows ∧ ∃ p ∈ get_client_farmer_periods db (some s) (some e),
        p.client_id = r.client_id ∧ containsB p r.date = true ∧ p.farmer_id = 0 := by
  obtain ⟨hc, hs, hm⟩ := filter_data_falsy_spec db df dc s e (some 0) h1 h2 rfl
  refine ⟨hc, hs, fun r => ?_⟩
  rw [hm r]
  constructor
  · rintro ⟨hrr, p, hp, hcl, hb⟩
    rw [Bool.and_eq_true] at hb
    exact ⟨hrr, p, hp, hcl, hb.1, beq_iff_eq.mp hb.2⟩
  · rintro ⟨hrr, p, hp, hcl, hb1, hb2⟩
    refine ⟨hrr, p, hp, hcl, ?_⟩
    rw [Bool.and_eq_true]
    exact ⟨hb1, beq_iff_eq.mpr hb2⟩

/-- C8 witness: a record covered by a farmer-0 period is kept by the
farmer-0 call. -/
theorem c8_zero_farmer_still_filters_witness :
    (⟨1, 10⟩ : Rec) ∈
      (filter_data_by_responsibility dbC8w dfOne "d" (some 0) (some (0, 100))).rows :=
  ((c8_zero_farmer_still_filters dbC8w dfOne "d" 0 100
      (by decide) (by decide)).2.2 ⟨1, 10⟩).mpr
    ⟨by decide, ⟨1, 0, some 0, none, none⟩, by decide, by decide, by decide, by decide⟩

/-- The head of the old-farmer CTE partition yields the interval from the
creation date to its own transfer date, attributed to its old farmer. -/
theorem oldHead_mem_periodsFor {db : DB} {cid : Nat} {c : Nat} {t : Transfer}
    {rest : List Transfer} (h1 : creationLookup db cid = some c)
    (hsort : sortedOld db cid = t :: rest) :
    (⟨cid, t.old_farmer_id.getD 0, some c, some t.transfer_date,
      nameOf db (t.old_farmer_id.getD 0)⟩ : Period) ∈ periodsFor db cid := by
  have hm : (⟨cid, t.old_farmer_id.getD 0, some c, some t.transfer_date,
      nameOf db (t.old_farmer_id.getD 0)⟩ : Period) ∈ oldPeriods db cid := by
    unfold oldPeriods
    rw [h1, hsort]
    simp only [lagPairs, List.map_cons]
    exact List.mem_cons_self _ _
  unfold periodsFor
  rw [List.mem_insertionSort]
  exact List.mem_append.mpr (Or.inr hm)

/-- A period whose start is a known date below the queried date cannot
contain it. -/
theorem containsB_false_of_lt {p : Period} {d s : Nat}
    (hs : p.start_date = some s) (h : d < s) : containsB p d = false := by
  unfold containsB
  rw [hs]
  simp only [Bool.and_eq_false_iff, decide_eq_false_iff_not, Nat.not_le]
  exact Or.inl h

/-- Containment forces the (non-null) start to be at or before the date. -/
theorem containsB_start_le {p : Period} {d s : Nat}
    (hs : p.start_date = some s) (hc : containsB p d = true) : s ≤ d := by
  unfold containsB at hc
  rw [hs] at hc
  rw [Bool.and_eq_true] at hc
  exact of_decide_eq_true hc.1

/-- C3 counterexample: client 1 (original farmer 7, created at 0) with a
single FARMER event whose `old_farmer_id` is null (none→2 at 10).  The
computed set is exactly one interval `[10, null) → 2`: no interval covers
`[0, 10)`, nothing is attributed to the original farmer 7, and a lookup in
the gap returns the failure pair. -/
theorem c3_counterexample :
    (get_client_farmer_periods dbC3 none none).filter (fun p => p.client_id == 1) =
      [⟨1, 2, some 10, none, none⟩] ∧
    responsibleFarmerAt dbC3 1 5 = (none, none) ∧
    dbC3.clients = [⟨1, 7, 0⟩] := by
  decide

/-- C3 (amended): the earliest FARMER event with a non-null `old_farmer_id`
(if any) yields the interval `[creation_date, its transfer_date)` attributed
to its `old_farmer_id`; events with null `old_farmer_id` yield no interval
and there is no fallback to the client's original farmer, so a gap precedes
the first transfer when the first event's `old_farmer_id` is null. -/
theorem c3_first_old_interval (db : DB) (cid : Nat) (c : Nat) (t : Transfer)
    (rest : List Transfer) (h1 : creationLookup db cid = some c)
    (hsort : sortedOld db cid = t :: rest) :
    (⟨cid, t.old_farmer_id.getD 0, some c, some t.transfer_date,
      nameOf db (t.old_farmer_id.getD 0)⟩ : Period) ∈ periodsFor db cid :=
  oldHead_mem_periodsFor h1 hsort

/-- C3 witness: for the concrete client of `dbC3w` (created at 5, first
FARMER event 4→6 at 12) the interval `[5, 12) → 4` is among the rows. -/
theorem c3_first_old_interval_witness :
    (⟨1, 4, some 5, some 12, none⟩ : Period) ∈ periodsFor dbC3w 1 :=
  c3_first_old_interval dbC3w 1 5 ⟨1, some 4, some 6, 12, "FARMER"⟩ []
    (by decide) (by decide)

/-- C4: for the spec's example client (original farmer 1 = A, created on or
before 2023-01-01, transfers A→B on 2023-03-15 and B→C on 2023-09-01, with
B = 2, C = 3), the point lookups return A, B (start inclusive), B, C, C at
2023-01-01, 2023-03-15, 2023-08-31, 2023-09-01 and 2025-01-01. -/
theorem c4_point_lookup (c : Nat) (hc : c ≤ 20230101) :
    (responsibleFarmerAt (dbC4 c) 1 20230101).1 = some 1 ∧
    (responsibleFarmerAt (dbC4 c) 1 20230315).1 = some 2 ∧
    (responsibleFarmerAt (dbC4 c) 1 20230831).1 = some 2 ∧
    (responsibleFarmerAt (dbC4 c) 1 20230901).1 = some 3 ∧
    (responsibleFarmerAt (dbC4 c) 1 20250101).1 = some 3 := by
  have hmem : (1 : Nat) ∈ allClientIds (dbC4 c) := by
    rw [show allClientIds (dbC4 c) = [1] from rfl]
    exact List.mem_singleton_self 1
  have hbr : (get_client_farmer_periods (dbC4 c) none none).filter
      (fun p => p.client_id == 1) =
      ([⟨1, 2, some 20230315, some 20230901, none⟩,
        ⟨1, 3, some 20230901, none, none⟩,
        ⟨1, 1, some c, some 20230315, none⟩,
        ⟨1, 2, some 20230315, some 20230901, none⟩] : List Period).insertionSort
        (fun p q => startLe p q = true) := by
    rw [filter_client_getClient hmem]
    rfl
  have key : ∀ (d : Nat) (x : Period),
      x ∈ ([⟨1, 2, some 20230315, some 20230901, none⟩,
        ⟨1, 3, some 20230901, none, none⟩,
        ⟨1, 1, some c, some 20230315, none⟩,
        ⟨1, 2, some 20230315, some 20230901, none⟩] : List Period) →
      containsB x d = true →
      (∀ y ∈ ([⟨1, 2, some 20230315, some 20230901, none⟩,
        ⟨1, 3, some 20230901, none, none⟩,
        ⟨1, 1, some c, some 20230315, none⟩,
        ⟨1, 2, some 20230315, some 20230901, none⟩] : List Period),
        containsB y d = true → y = x) →
      responsibleFarmerAt (dbC4 c) 1 d = (some x.farmer_id, x.farmer_name) := by
    intro d x hx hcx huniq
    unfold responsibleFarmerAt
    apply lookup_eq_of_find
    rw [hbr]
    exact find?_eq_of_unique ((List.mem_insertionSort _).mpr hx) hcx
      (fun y hy hpy => huniq y ((List.mem_insertionSort _).mp hy) hpy)
  refine ⟨?_, ?_, ?_, ?_, ?_⟩
  · rw [key 20230101 ⟨1, 1, some c, some 20230315, none⟩ (by simp)
      (by simp [containsB]; omega) ?_]
    intro y hy hcy
    simp only [List.mem_cons, List.not_mem_nil, or_false] at hy
    rcases hy with rfl | rfl | rfl | rfl
    · simp [containsB] at hcy
    · simp [containsB] at hcy
    · rfl
    · simp [containsB] at hcy
  · rw [key 20230315 ⟨1, 2, some 20230315, some 20230901, none⟩ (by simp)
      (by simp [containsB]) ?_]
    intro y hy hcy
    simp only [List.mem_cons, List.not_mem_nil, or_false] at hy
    rcases hy with rfl | rfl | rfl | rfl
    · rfl
    · simp [containsB] at hcy
    · simp [containsB] at hcy
    · rfl
  · rw [key 20230831 ⟨1, 2, some 20230315, some 20230901, none⟩ (by simp)
      (by simp [containsB]) ?_]
    intro y hy hcy
    simp only [List.mem_cons, List.not_mem_nil, or_false] at hy
    rcases hy with rfl | rfl | rfl | rfl
    · rfl
    · simp [containsB] at hcy
    · simp [containsB] at hcy
    · rfl
  · rw [key 20230901 ⟨1, 3, some 20230901, none, none⟩ (by simp)
      (by simp [containsB]) ?_]
    intro y hy hcy
    simp only [List.mem_cons, List.not_mem_nil, or_false] at hy
    rcases hy with rfl | rfl | rfl | rfl
    · simp [containsB] at hcy
    · rfl
    · simp [containsB] at hcy
    · simp [containsB] at hcy
  · rw [key 20250101 ⟨1, 3, some 20230901, none, none⟩ (by simp)
      (by simp [containsB]) ?_]
    intro y hy hcy
    simp only [List.mem_cons, List.not_mem_nil, or_false] at hy
    rcases hy with rfl | rfl | rfl | rfl
    · simp [containsB] at hcy
    · rfl
    · simp [containsB] at hcy
    · simp [containsB] at hcy

/-- C4 witness: the lookups at the concrete creation date 2023-01-01. -/
theorem c4_point_lookup_witness :
    (responsibleFarmerAt (dbC4 20230101) 1 20230101).1 = some 1 ∧
    (responsibleFarmerAt (dbC4 20230101) 1 20230315).1 = some 2 ∧
    (responsibleFarmerAt (dbC4 20230101) 1 20230831).1 = some 2 ∧
    (responsibleFarmerAt (dbC4 20230101) 1 20230901).1 = some 3 ∧
    (responsibleFarmerAt (dbC4 20230101) 1 20250101).1 = some 3 :=
  c4_point_lookup 20230101 (by decide)

/-- C7 counterexample: for client 1 of `dbC7` (original farmer 1, created
at 10, FARMER transfer 2→3 dated 5, before creation) the lookup at the
creation date returns farmer 3 — not the original farmer 1 — and the lookup
at 7, strictly before creation, returns farmer 3 rather than none. -/
theorem c7_counterexample :
    dbC7.clients = [⟨1, 1, 10⟩] ∧
    (responsibleFarmerAt dbC7 1 10).1 = some 3 ∧
    (responsibleFarmerAt dbC7 1 7).1 = some 3 := by
  decide

/-- C7 (amended): for a client with a unique creation record whose FARMER
transfers all happen strictly after creation, all carry a non-null
`old_farmer_id`, and whose earliest transfer's `old_farmer_id` equals the
original farmer (vacuous with no transfers), the lookup at `creation_date`
resolves to the original farmer and any lookup strictly before
`creation_date` resolves to the failure pair.  Without these conditions the
creation-date lookup returns the earliest event's old farmer (or a
transfer dated before creation can cover earlier dates). -/
theorem c7_boundary_lookup (db : DB) (cid : Nat) (cl : Client)
    (hcl : db.clients.filter (fun c => c.client_id == cid) = [cl])
    (hgt : ∀ t ∈ farmerTransfersOf db cid, cl.creation_date < t.transfer_date)
    (holdsome : ∀ t ∈ farmerTransfersOf db cid, t.old_farmer_id.isSome = true)
    (hfirst : ∀ (t : Transfer) (rest : List Transfer),
      sortByDate (farmerTransfersOf db cid) = t :: rest →
      t.old_farmer_id = some cl.farmer_id) :
    (responsibleFarmerAt db cid cl.creation_date).1 = some cl.farmer_id ∧
    ∀ d, d < cl.creation_date → responsibleFarmerAt db cid d = (none, none) := by
  obtain ⟨hcl1, hcl2⟩ := client_of_filter_singleton hcl
  have hcm : cid ∈ allClientIds db := hcl2 ▸ mem_allClientIds_of_client hcl1
  have hbr := filter_client_getClient hcm
  have hcr : creationLookup db cid = some cl.creation_date := by
    unfold creationLookup
    rw [find?_eq_head_filter, hcl]
    rfl
  cases hts : sortByDate (farmerTransfersOf db cid) with
  | nil =>
    have hft : farmerTransfersOf db cid = [] := by
      have hp : List.Perm (sortByDate (farmerTransfersOf db cid))
          (farmerTransfersOf db cid) := List.perm_insertionSort _ _
      rw [hts] at hp
      have := hp.length_eq
      simp only [List.length_nil] at this
      exact (List.eq_nil_of_length_eq_zero this.symm)
    have hper := periodsFor_no_transfers hcl hft
    constructor
    · have hfind : ((get_client_farmer_periods db none none).filter
          (fun p => p.client_id == cid)).find?
          (fun p => containsB p cl.creation_date) =
          some ⟨cl.client_id, cl.farmer_id, some cl.creation_date, none,
            nameOf db cl.farmer_id⟩ := by
        rw [hbr, hper]
        apply List.find?_cons_of_pos
        unfold containsB
        simp
      have hres := lookup_eq_of_find hfind
      unfold responsibleFarmerAt
      rw [hres]
    · intro d hd
      have hres : lookupResponsible (get_client_farmer_periods db none none) cid d =
          (none, none) := by
        apply lookup_eq_none_of_nocontain
        rw [hbr, hper]
        intro p hp
        rw [List.mem_singleton] at hp
        rw [hp]
        exact containsB_false_of_lt rfl hd
      exact hres
  | cons t rest =>
    have htsort : t ∈ sortByDate (farmerTransfersOf db cid) := by
      rw [hts]
      exact List.mem_cons_self _ _
    have htmem : t ∈ farmerTransfersOf db cid := by
      unfold sortByDate at htsort
      exact (List.mem_insertionSort _).mp htsort
    have hftne : farmerTransfersOf db cid ≠ [] := by
      intro h
      rw [h] at htmem
      cases htmem
    have hfold : (farmerTransfersOf db cid).filter (fun t => t.old_farmer_id.isSome) =
        farmerTransfersOf db cid := List.filter_eq_self.mpr holdsome
    have hsold : sortedOld db cid = t :: rest := by
      unfold sortedOld
      rw [hfold]
      exact hts
    have horig : originalPeriods db cid = [] := by
      unfold originalPeriods
      cases hft : farmerTransfersOf db cid with
      | nil => exact absurd hft hftne
      | cons a l => rfl
    have hdecomp : ∀ q ∈ periodsFor db cid,
        q = (⟨cid, t.old_farmer_id.getD 0, some cl.creation_date,
          some t.transfer_date, nameOf db (t.old_farmer_id.getD 0)⟩ : Period) ∨
        ∃ w ∈ farmerTransfersOf db cid, q.start_date = some w.transfer_date := by
      intro q hq
      unfold periodsFor at hq
      rw [List.mem_insertionSort] at hq
      rcases List.mem_append.mp hq with hq1 | hqold
      · rcases List.mem_append.mp hq1 with hqo | hqn
        · rw [horig] at hqo
          cases hqo
        · right
          unfold newPeriods at hqn
          obtain ⟨te, hte, hteq⟩ := List.mem_map.mp hqn
          refine ⟨te.1, mem_sortedNew_sub (leadPairs_fst_mem hte), ?_⟩
          rw [← hteq]
      · unfold oldPeriods at hqold
        rw [hcr, hsold] at hqold
        obtain ⟨ts', hts', htq⟩ := List.mem_map.mp hqold
        simp only [lagPairs] at hts'
        rcases List.mem_cons.mp hts' with h | h
        · left
          rw [← htq, h]
        · right
          obtain ⟨h1, w, hw, h2⟩ := mem_lagTail h
          have hwmem : w ∈ farmerTransfersOf db cid := by
            have hws : w ∈ sortByDate (farmerTransfersOf db cid) := by
              rw [hts]
              exact hw
            unfold sortByDate at hws
            exact (List.mem_insertionSort _).mp hws
          refine ⟨w, hwmem, ?_⟩
          rw [← htq]
          exact h2
    constructor
    · have hcont : containsB (⟨cid, t.old_farmer_id.getD 0, some cl.creation_date,
          some t.transfer_date, nameOf db (t.old_farmer_id.getD 0)⟩ : Period)
          cl.creation_date = true := by
        unfold containsB
        rw [Bool.and_eq_true]
        exact ⟨by simp, by simpa using hgt t htmem⟩
      have hfind : ((get_client_farmer_periods db none none).filter
          (fun p => p.client_id == cid)).find?
          (fun p => containsB p cl.creation_date) =
          some ⟨cid, t.old_farmer_id.getD 0, some cl.creation_date,
            some t.transfer_date, nameOf db (t.old_farmer_id.getD 0)⟩ := by
        rw [hbr]
        apply find?_eq_of_unique (oldHead_mem_periodsFor hcr hsold) hcont
        intro y hy hpy
        rcases hdecomp y hy with h | ⟨w, hw, hws⟩
        · exact h
        · exfalso
          have hle : w.transfer_date ≤ cl.creation_date := containsB_start_le hws hpy
          have hlt : cl.creation_date < w.transfer_date := hgt w hw
          omega
      have hres := lookup_eq_of_find hfind
      unfold responsibleFarmerAt
      rw [hres]
      rw [hfirst t rest hts]
      rfl
    · intro d hd
      have hres : lookupResponsible (get_client_farmer_periods db none none) cid d =
          (none, none) := by
        apply lookup_eq_none_of_nocontain
        rw [hbr]
        intro q hq
        rcases hdecomp q hq with h | ⟨w, hw, hws⟩
        · rw [h]
          exact containsB_false_of_lt rfl hd
        · exact containsB_false_of_lt hws (Nat.lt_trans hd (hgt w hw))
      exact hres

/-- C7 witness: for the concrete well-formed client of `dbC7w` the lookup
at creation resolves to the original farmer 7 and a lookup before creation
resolves to the failure pair. -/
theorem c7_boundary_lookup_witness :
    (responsibleFarmerAt dbC7w 1 10).1 = some 7 ∧
    responsibleFarmerAt dbC7w 1 3 = (none, none) := by
  have H := c7_boundary_lookup dbC7w 1 ⟨1, 7, 10⟩ (by decide) (by decide) (by decide)
    (by
      intro t rest h
      rw [show sortByDate (farmerTransfersOf dbC7w 1) =
        [⟨1, some 7, some 8, 20, "FARMER"⟩] from rfl] at h
      injection h with h1 h2
      rw [← h1])
  exact ⟨H.1, H.2 3 (by decide)⟩

/-- C1 counterexample: client 1 of `dbC1` has N = 2 FARMER transfers with
non-null farmer ids, yet its computed set holds 4 distinct rows (not
N + 1 = 3), among them two different rows with the identical overlapping
range `[10, 20)` (farmers 2 and 9). -/
theorem c1_counterexample :
    ((get_client_farmer_periods dbC1 none none).filter
      (fun p => p.client_id == 1)).length = 4 ∧
    ((get_client_farmer_periods dbC1 none none).filter
      (fun p => p.client_id == 1)).Nodup ∧
    ∃ p ∈ (get_client_farmer_periods dbC1 none none).filter
      (fun p => p.client_id == 1),
      ∃ q ∈ (get_client_farmer_periods dbC1 none none).filter
        (fun p => p.client_id == 1),
        p ≠ q ∧ p.start_date = q.start_date ∧ p.end_date = q.end_date := by
  decide

theorem sortByDate_eq_nil {l : List Transfer} (h : sortByDate l = []) : l = [] := by
  have hp : List.Perm (sortByDate l) l := List.perm_insertionSort _ _
  rw [h] at hp
  have hlen := hp.length_eq
  simp only [List.length_nil] at hlen
  exact List.eq_nil_of_length_eq_zero hlen.symm

theorem mem_lead_lag_iff_of_ne {c : Nat} {xs : List Nat} (h : xs ≠ [])
    {x : Nat × Option Nat} :
    (x ∈ leadRanges xs ∨ x ∈ lagRanges c xs) ↔ x ∈ leadRanges (c :: xs) := by
  cases xs with
  | nil => exact absurd rfl h
  | cons t rest => exact mem_lead_lag_iff

/-- C1 (amended): for a client with a creation record and N ≥ 1 FARMER
transfers with non-null old and new farmer ids and strictly increasing
dates all after the creation date, the computed row set has 2·N rows (each
interior boundary range occurs twice, once from the new-farmer CTE and once
from the old-farmer CTE), and the distinct `[start, end)` ranges among them
are exactly the N + 1 canonical ranges cut at the transfer dates: pairwise
distinct, exactly one open-ended, starting at the creation date, and tiling
`[creation_date, +∞)` — every date at or after creation lies in exactly one
of them and no range contains an earlier date. -/
theorem c1_tiling (db : DB) (cid : Nat) (c : Nat)
    (h1 : creationLookup db cid = some c)
    (hne : farmerTransfersOf db cid ≠ [])
    (holdsome : ∀ t ∈ farmerTransfersOf db cid, t.old_farmer_id.isSome = true)
    (hnewsome : ∀ t ∈ farmerTransfersOf db cid, t.new_farmer_id.isSome = true)
    (hgt : ∀ t ∈ farmerTransfersOf db cid, c < t.transfer_date)
    (hpw : (sortByDate (farmerTransfersOf db cid)).Pairwise
      (fun a b => a.transfer_date < b.transfer_date))
    (ds : List Nat)
    (hds : ds = (sortByDate (farmerTransfersOf db cid)).map (fun t => t.transfer_date))
    (ps : List Period)
    (hps : ps = (get_client_farmer_periods db none none).filter
      (fun p => p.client_id == cid)) :
    ps.length = 2 * ds.length ∧
    (∀ x, x ∈ ps.map rangeOf ↔ ∃ r ∈ leadRanges (c :: ds), x = someFst r) ∧
    (leadRanges (c :: ds)).Nodup ∧
    (leadRanges (c :: ds)).length = ds.length + 1 ∧
    ((leadRanges (c :: ds)).filter (fun r => r.2.isNone)).length = 1 ∧
    (∀ d, c ≤ d → ∃! r, r ∈ leadRanges (c :: ds) ∧ rContains r d = true) ∧
    (∀ d, d < c → ∀ r ∈ leadRanges (c :: ds), rContains r d = false) := by
  have hcm : cid ∈ allClientIds db := by
    cases hft : farmerTransfersOf db cid with
    | nil => exact absurd hft hne
    | cons a l =>
      have ham : a ∈ farmerTransfersOf db cid := by
        rw [hft]
        exact List.mem_cons_self _ _
      have h2 := List.mem_filter.mp ham
      have h3 : a.client_id = cid := by
        have h4 := h2.2
        rw [Bool.and_eq_true] at h4
        exact beq_iff_eq.mp h4.1
      exact h3 ▸ mem_allClientIds_of_transfer h2.1
  have hbr := filter_client_getClient hcm
  have hps2 : ps = periodsFor db cid := by rw [hps, hbr]
  have hfo : (farmerTransfersOf db cid).filter (fun t => t.old_farmer_id.isSome) =
      farmerTransfersOf db cid := List.filter_eq_self.mpr holdsome
  have hfn : (farmerTransfersOf db cid).filter (fun t => t.new_farmer_id.isSome) =
      farmerTransfersOf db cid := List.filter_eq_self.mpr hnewsome
  have hsoldeq : sortedOld db cid = sortByDate (farmerTransfersOf db cid) := by
    unfold sortedOld
    rw [hfo]
  have hsneweq : sortedNew db cid = sortByDate (farmerTransfersOf db cid) := by
    unfold sortedNew
    rw [hfn]
  have htsl : sortByDate (farmerTransfersOf db cid) ≠ [] :=
    fun h => hne (sortByDate_eq_nil h)
  have hdsne : ds ≠ [] := by
    rw [hds]
    cases hq : sortByDate (farmerTransfersOf db cid) with
    | nil => exact absurd hq htsl
    | cons a l => simp
  have hdsl : ds.length = (sortByDate (farmerTransfersOf db cid)).length := by
    rw [hds, List.length_map]
  have hdspw : ds.Pairwise (· < ·) := by
    rw [hds]
    exact List.Pairwise.map _ (fun a b h => h) hpw
  have hall : ∀ x ∈ ds, c < x := by
    rw [hds]
    intro x hx
    obtain ⟨t, ht, rfl⟩ := List.mem_map.mp hx
    have htm : t ∈ farmerTransfersOf db cid := by
      unfold sortByDate at ht
      exact (List.mem_insertionSort _).mp ht
    exact hgt t htm
  have hcpw : (c :: ds).Pairwise (· < ·) := List.pairwise_cons.mpr ⟨hall, hdspw⟩
  have hnewr : (newPeriods db cid).map rangeOf = (leadRanges ds).map someFst := by
    rw [map_rangeOf_newPeriods db cid, hsneweq, ← hds]
  have holdr : (oldPeriods db cid).map rangeOf = (lagRanges c ds).map someFst := by
    rw [map_rangeOf_oldPeriods h1, hsoldeq, ← hds]
  have horig : originalPeriods db cid = [] := by
    unfold originalPeriods
    cases hft : farmerTransfersOf db cid with
    | nil => exact absurd hft hne
    | cons a l => rfl
  have hperm : List.Perm ps (newPeriods db cid ++ oldPeriods db cid) := by
    rw [hps2]
    unfold periodsFor
    rw [horig]
    have hp : List.Perm ((([] : List Period) ++ newPeriods db cid ++
        oldPeriods db cid).insertionSort (fun p q => startLe p q = true))
        (([] : List Period) ++ newPeriods db cid ++ oldPeriods db cid) :=
      List.perm_insertionSort _ _
    simpa using hp
  have hnl : (newPeriods db cid).length = ds.length := by
    unfold newPeriods
    rw [List.length_map, length_leadPairs, hsneweq, hdsl]
  have hol : (oldPeriods db cid).length = ds.length := by
    unfold oldPeriods
    rw [List.length_map, length_lagPairs, hsoldeq, hdsl]
  refine ⟨?_, ?_, nodup_leadRanges hcpw, ?_, ?_, ?_, ?_⟩
  · have hle := hperm.length_eq
    rw [List.length_append, hnl, hol] at hle
    omega
  · intro x
    rw [(hperm.map rangeOf).mem_iff, List.map_append, List.mem_append, hnewr, holdr]
    constructor
    · rintro (h | h)
      · obtain ⟨r, hr, rfl⟩ := List.mem_map.mp h
        exact ⟨r, (mem_lead_lag_iff_of_ne hdsne).mp (Or.inl hr), rfl⟩
      · obtain ⟨r, hr, rfl⟩ := List.mem_map.mp h
        exact ⟨r, (mem_lead_lag_iff_of_ne hdsne).mp (Or.inr hr), rfl⟩
    · rintro ⟨r, hr, rfl⟩
      rcases (mem_lead_lag_iff_of_ne hdsne).mpr hr with h | h
      · exact Or.inl (List.mem_map_of_mem _ h)
      · exact Or.inr (List.mem_map_of_mem _ h)
  · rw [length_leadRanges]
    rfl
  · exact open_count_leadRanges _ (List.cons_ne_nil _ _)
  · intro d hd
    exact leadRanges_tile ds c hcpw d hd
  · intro d hd r hr
    apply before_head_leadRanges _ hr
    intro z hz
    rcases List.mem_cons.mp hz with rfl | hz'
    · exact hd
    · exact Nat.lt_trans hd (hall z hz')

/-- C1 witness: the single-transfer client of `dbC1w` (N = 1): two rows,
and the canonical ranges `[0,10), [10,∞)` are the 2 = N + 1 distinct
pairwise-distinct ranges with one open end. -/
theorem c1_tiling_witness :
    ([(⟨1, 1, some 0, some 10, none⟩ : Period),
      ⟨1, 2, some 10, none, none⟩].length = 2 * [10].length) ∧
    (leadRanges (0 :: [10])).Nodup ∧
    (leadRanges (0 :: [10])).length = [10].length + 1 ∧
    ((leadRanges (0 :: [10])).filter (fun r => r.2.isNone)).length = 1 := by
  have H := c1_tiling dbC1w 1 0 (by decide) (by decide) (by decide) (by decide)
    (by decide) (by decide) [10] (by decide)
    [⟨1, 1, some 0, some 10, none⟩, ⟨1, 2, some 10, none, none⟩] (by decide)
  exact ⟨H.1, H.2.2.1, H.2.2.2.1, H.2.2.2.2.1⟩

end ETLGamma
